import Mathlib

/-!
# Verification of the mrpt Python binding (`cpp/mrptmodule.cpp`)

Shallow embedding of the binding layer of the mrpt approximate-nearest-
neighbour library, together with spec-modelled definitions for the engine
(`Mrpt.h`), which this repository only calls.  Machine floats are modelled
by exact integers (coordinates, dot products, squared distances) and
rationals (the density parameter): every claim checked here concerns
ordering, selection, counting and structural round-trips, none of which
depends on rounding.

Point and leaf identifiers are C `int`s used as array indices; the pure
models use `Nat` for identifiers and `Int` for vote counters (the C code
stores them in an Eigen `VectorXi`) and vote thresholds.
-/

namespace Mrpt

/-! ## Definitions

### Vote filtering (`filter_leaves_by_votes`, mrptmodule.cpp lines 225-245)

The C loop keeps a zero-initialised tally `votes`, walks the input array
once, increments the tally entry of each id, and appends the id to the
output exactly when the incremented tally equals `votes_required`. -/

/-- One tally update: the entry of `x` becomes `c x + 1`, others unchanged
(models `++votes(*leaves)` on the `VectorXi` tally). -/
def bumpTally (c : Nat → Int) (x : Nat) : Nat → Int :=
  fun y => if y = x then c x + 1 else c y

/-- The loop body of `filter_leaves_by_votes`: walk the remaining ids with
the current tally `c`, appending an id when its incremented count equals
`req`. -/
def filterVotesAux (req : Int) : List Nat → (Nat → Int) → List Nat
  | [], _ => []
  | x :: xs, c =>
      if c x + 1 = req then x :: filterVotesAux req xs (bumpTally c x)
      else filterVotesAux req xs (bumpTally c x)

/-- `filter_leaves_by_votes` (mrptmodule.cpp lines 233-240): zero tally,
then the loop.  In the C code the ids are `int`s indexing a vote array of
size `num_leaves`; this pure model uses a total tally over `Nat` ids (the
bounded-array behaviour is modelled separately by `filterVotesArrAux`). -/
def filter_leaves_by_votes (leaves : List Nat) (votes_required : Int) : List Nat :=
  filterVotesAux votes_required leaves (fun _ => 0)

/-- Bounded-array model of the same loop: the tally is the actual
`VectorXi::Zero(num_leaves)` vector, and each access `votes(*leaves)` is
guarded by the bound the C code assumes; an out-of-range id yields `none`
(the C code would access memory out of bounds there). -/
def filterVotesArrAux (req : Int) : List Nat → List Int → Option (List Nat)
  | [], _ => some []
  | x :: xs, votes =>
      if h : x < votes.length then
        match filterVotesArrAux req xs (votes.set x (votes[x] + 1)) with
        | none => none
        | some rest => some (if votes[x] + 1 = req then x :: rest else rest)
      else none

/-- The full bounded-array filter: `VectorXi::Zero(num_leaves)` tally, then
the loop over the input ids. -/
def filterLeavesByVotesArr (leaves : List Nat) (num_leaves : Nat) (req : Int) :
    Option (List Nat) :=
  filterVotesArrAux req leaves (List.replicate num_leaves 0)

/-! ### Output conversion (`vector_to_nparray`, mrptmodule.cpp lines 185-206) -/

/-- The two numpy element types the binding uses (`PyArray_FLOAT` /
`PyArray_INT`). -/
inductive NpType where
  | float32
  | int32
deriving DecidableEq

/-- A one-dimensional numpy array: an element type plus its contents. -/
structure NpArray where
  dtype : NpType
  data : List Int
deriving DecidableEq

/-- `vector_to_nparray` (lines 185-206): a non-empty vector is copied into
an array of the requested `type_num`; an empty vector is returned as
`PyArray_ZEROS(1, {0}, PyArray_FLOAT, 0)`, hard-coding the float type. -/
def vector_to_nparray (vec : List Int) (type_num : NpType) : NpArray :=
  if vec.isEmpty then { dtype := NpType.float32, data := [] }
  else { dtype := type_num, data := vec }

/-- The tail of `filter_leaves_by_votes` (lines 242-243): the candidate
list is converted with requested type `PyArray_INT`. -/
def filterLeavesWrapper (leaves : List Nat) (req : Int) : NpArray :=
  vector_to_nparray ((filter_leaves_by_votes leaves req).map Int.ofNat) NpType.int32

/-! ### Distances and exact k-nearest-neighbour selection

`Mrpt::exact_knn` lives in `Mrpt.h`, which is not part of the reviewed
source; it is modelled from the spec (§4.6). -/

/-- Squared Euclidean distance between two coordinate lists. -/
def sqDist (u v : List Int) : Int :=
  ((List.zipWith (fun a b => a - b) u v).map (fun x => x * x)).sum

/-- Squared distance from point `i` of the dataset to the query. -/
def distTo (data : List (List Int)) (q : List Int) (i : Nat) : Int :=
  sqDist (data.getD i []) q

/-- The selection order of the spec (§4.6): ascending squared distance,
ties broken by ascending point index. -/
def nnLE (data : List (List Int)) (q : List Int) (i j : Nat) : Prop :=
  distTo data q i < distTo data q j ∨ (distTo data q i = distTo data q j ∧ i ≤ j)

instance nnLE.decidableRel (data : List (List Int)) (q : List Int) :
    DecidableRel (nnLE data q) := fun _ _ => by
  unfold nnLE
  infer_instance

instance nnLE.isTotal (data : List (List Int)) (q : List Int) :
    IsTotal Nat (nnLE data q) :=
  ⟨fun a b => by unfold nnLE; omega⟩

instance nnLE.isTrans (data : List (List Int)) (q : List Int) :
    IsTrans Nat (nnLE data q) :=
  ⟨fun a b c hab hbc => by unfold nnLE at hab hbc ⊢; omega⟩

/-- Modelled from the spec: `Mrpt::exact_knn` (§4.6, declared in `Mrpt.h`,
not under `src/`) — sort the candidate indices by ascending squared
Euclidean distance with ties broken by ascending index, and keep the `k`
smallest. -/
def exact_knn (data : List (List Int)) (q : List Int) (k : Nat) (cand : List Nat) :
    List Nat :=
  (List.insertionSort (nnLE data q) cand).take k

/-- `exact_search` (mrptmodule.cpp lines 359-421, one-dimensional query):
the wrapper fills `idx` with `iota(0, n)` and calls `exact_knn` over the
whole dataset. -/
def exact_search (data : List (List Int)) (q : List Int) (k : Nat) : List Nat :=
  exact_knn data q k (List.range data.length)

/-! ### The forest and the spec-modelled engine (`Mrpt.h`, not under `src/`) -/

/-- Modelled from the spec: a projection-tree node (§3 Tree Node) — an
internal node holds a projection vector and a split value, a leaf holds
the indices of the dataset points routed to it. -/
inductive TNode where
  | leaf (idxs : List Nat)
  | internal (proj : List Int) (split : Int) (l r : TNode)
deriving DecidableEq

/-- A node respects depth bound `d`: leaves may appear at any level (§4.2
stops early on small index sets), an internal node consumes one level. -/
def hasDepthB : TNode → Nat → Bool
  | TNode.leaf _, _ => true
  | TNode.internal _ _ _ _, 0 => false
  | TNode.internal _ _ l r, d + 1 => hasDepthB l d && hasDepthB r d

/-- Dot product of two coordinate lists. -/
def dotInt (u v : List Int) : Int := (List.zipWith (fun a b => a * b) u v).sum

/-- Modelled from the spec: tree routing (§4.3) — at an internal node
descend left when the projection of the query is below the split value,
right otherwise; a leaf returns its point indices. -/
def routeNode : TNode → List Int → List Nat
  | TNode.leaf idxs, _ => idxs
  | TNode.internal proj split l r, q =>
      if dotInt proj q < split then routeNode l q else routeNode r q

/-- Modelled from the spec: the Forest (§3) — metadata plus the trees;
the dataset is borrowed, so the queries take it as a parameter. -/
structure Forest where
  n : Nat
  dim : Nat
  depth : Nat
  density : ℚ
  trees : List TNode
deriving DecidableEq

/-- Every tree of the forest respects the declared depth. -/
def forestWF (f : Forest) : Bool := f.trees.all (fun t => hasDepthB t f.depth)

/-- A one-leaf forest over a single two-dimensional point (used as a
concrete instance). -/
def leafForest : Forest :=
  { n := 1, dim := 2, depth := 0, density := 1, trees := [TNode.leaf [0]] }

/-- A depth-1 forest with one internal node over two one-dimensional
points (used as a concrete instance). -/
def demoForest : Forest :=
  { n := 2, dim := 1, depth := 1, density := 1,
    trees := [TNode.internal [1] 0 (TNode.leaf [0]) (TNode.leaf [1])] }

/-- The spec's error taxonomy (§7), restricted to the errors the claims
mention. -/
inductive MrptError where
  | invalidParameter
  | dimensionMismatch
deriving DecidableEq

/-- Modelled from the spec: construction parameter validation
(`build_forest`, §6 and §4.1; the `Mrpt` constructor is in `Mrpt.h`, not
under `src/`) — `n_trees <= 0`, `depth < 0` or `density` outside `(0, 1]`
are rejected with `InvalidParameter` before any tree is built; otherwise
the accepted parameters of the still-unbuilt index are recorded (the
binding's `Mrpt_init` calls `grow` separately). -/
def Mrpt_init (n_trees depth : Int) (density : ℚ) : Except MrptError (Int × Int × ℚ) :=
  if n_trees ≤ 0 ∨ depth < 0 ∨ density ≤ 0 ∨ 1 < density then
    Except.error MrptError.invalidParameter
  else Except.ok (n_trees, depth, density)

/-- Modelled from the spec: `Mrpt::query_from_leaves` (§4.5 steps 3-5 and
§4.7; `Mrpt.h` is not under `src/`) — the routed ids vote, ids reaching
`elect` votes form the candidate set, and the exact engine keeps the `k`
nearest candidates (fewer when fewer survive). -/
def query_from_leaves (data : List (List Int)) (q : List Int) (leaves : List Nat)
    (k : Nat) (elect : Int) : List Nat :=
  exact_knn data q k (filter_leaves_by_votes leaves elect)

/-- The output buffer of the binding: `PyArray_SimpleNew(1, {k}, NPY_INT)`
allocates `k` uninitialised slots (`none`); the engine writes its results
at the front. -/
def writeBuffer (k : Nat) (res : List Nat) : List (Option Nat) :=
  (res.map some ++ List.replicate k none).take k

/-- `ann_from_leaves` (mrptmodule.cpp lines 247-276): allocate a
length-`k` result array and let the engine fill in the nearest
candidates. -/
def ann_from_leaves (data : List (List Int)) (q : List Int) (leaves : List Nat)
    (k : Nat) (elect : Int) : List (Option Nat) :=
  writeBuffer k (query_from_leaves data q leaves k elect)

/-- Modelled from the spec: `approximate_query` (§4.5; `Mrpt::query` is in
`Mrpt.h`, not under `src/`) — validate the query length against the index
dimensionality (`DimensionMismatch` otherwise), route every tree, vote,
filter by `elect` and keep the `k` nearest candidates. -/
def approximate_query (data : List (List Int)) (f : Forest) (q : List Int)
    (k : Nat) (elect : Int) : Except MrptError (List Nat) :=
  if q.length ≠ f.dim then Except.error MrptError.dimensionMismatch
  else Except.ok (exact_knn data q k
    (filter_leaves_by_votes ((f.trees.map (fun t => routeNode t q)).flatten) elect))

/-- Modelled from the spec: `exact_query` (§6; `Mrpt::exact_knn` is in
`Mrpt.h`, not under `src/`) — validate the query length, then brute-force
over the whole dataset. -/
def exact_query (data : List (List Int)) (dim : Nat) (q : List Int) (k : Nat) :
    Except MrptError (List Nat) :=
  if q.length ≠ dim then Except.error MrptError.dimensionMismatch
  else Except.ok (exact_search data q k)

/-! ### Persistence codec (`Mrpt::save` / `Mrpt::load`, spec §4.9) -/

/-- Modelled from the spec: the persisted node encoding (§4.9 and §6;
`Mrpt::save` is in `Mrpt.h`, not under `src/`) — depth-first: a node tag,
then for a leaf the length-prefixed index list, for an internal node the
length-prefixed projection vector, the split value and the two
subtrees. -/
def encodeNode : TNode → List Int
  | TNode.leaf idxs => 0 :: (idxs.length : Int) :: idxs.map Int.ofNat
  | TNode.internal proj split l r =>
      1 :: (proj.length : Int) :: (proj ++ split :: (encodeNode l ++ encodeNode r))

/-- Modelled from the spec: node decoding, bounded by the declared tree
depth; fails on tags or layouts that do not fit the declared shape. -/
def decodeNode : Nat → List Int → Option (TNode × List Int)
  | _, 0 :: len :: rest =>
      if rest.length < len.toNat then none
      else some (TNode.leaf ((rest.take len.toNat).map Int.toNat), rest.drop len.toNat)
  | d + 1, 1 :: plen :: rest =>
      if plen.toNat ≤ rest.length then
        match rest.drop plen.toNat with
        | split :: rest2 =>
            match decodeNode d rest2 with
            | some (l, rest3) =>
                match decodeNode d rest3 with
                | some (r, rest4) =>
                    some (TNode.internal (rest.take plen.toNat) split l r, rest4)
                | none => none
            | none => none
        | [] => none
      else none
  | _, _ => none

/-- Decode `m` consecutive trees, each bounded by depth `d`. -/
def decodeTrees : Nat → Nat → List Int → Option (List TNode × List Int)
  | 0, _, s => some ([], s)
  | m + 1, d, s =>
      match decodeNode d s with
      | some (t, s1) =>
          match decodeTrees m d s1 with
          | some (ts, s2) => some (t :: ts, s2)
          | none => none
      | none => none

/-- Modelled from the spec: `Mrpt::save` (§4.9; `Mrpt.h` is not under
`src/`) — a header with `n`, `dim`, the tree count, the depth and the
density (numerator and denominator), followed by the depth-first
encodings of all trees. -/
def save (f : Forest) : List Int :=
  (f.n : Int) :: (f.dim : Int) :: (f.trees.length : Int) :: (f.depth : Int) ::
    f.density.num :: (f.density.den : Int) :: (f.trees.map encodeNode).flatten

/-- Modelled from the spec: `Mrpt::load` (§4.9; `Mrpt.h` is not under
`src/`) — parse the header, decode the declared number of trees and
require the stream to be exhausted. -/
def load (s : List Int) : Option Forest :=
  match s with
  | n :: dim :: ntrees :: depth :: dnum :: dden :: rest =>
      match decodeTrees ntrees.toNat depth.toNat rest with
      | some (ts, []) =>
          some { n := n.toNat, dim := dim.toNat, depth := depth.toNat,
                 density := mkRat dnum dden.toNat, trees := ts }
      | _ => none
  | _ => none

end Mrpt

namespace Mrpt

/-! ## Theorems -/

theorem bumpTally_self (c : Nat → Int) (x : Nat) : bumpTally c x x = c x + 1 := by
  simp [bumpTally]

theorem bumpTally_ne (c : Nat → Int) (x y : Nat) (h : y ≠ x) : bumpTally c x y = c y := by
  simp [bumpTally, h]

/-- Core counting invariant of the vote-filter loop: starting from tally
`c`, an id `x` appears in the output exactly once when its tally starts
below `req` and the remaining occurrences push it to `req`, and never
otherwise. -/
theorem count_filterVotesAux (req : Int) (leaves : List Nat) (c : Nat → Int) (x : Nat) :
    (filterVotesAux req leaves c).count x =
      if c x < req ∧ req ≤ c x + (leaves.count x : Int) then 1 else 0 := by
  induction leaves generalizing c with
  | nil =>
      simp only [filterVotesAux, List.count_nil]
      split
      · omega
      · rfl
  | cons y xs ih =>
      by_cases hxy : x = y
      · subst hxy
        simp only [filterVotesAux, List.count_cons_self]
        by_cases hreq : c x + 1 = req
        · rw [if_pos hreq, List.count_cons_self, ih (bumpTally c x), bumpTally_self]
          push_cast
          split <;> split <;> omega
        · rw [if_neg hreq, ih (bumpTally c x), bumpTally_self]
          push_cast
          split <;> split <;> omega
      · simp only [filterVotesAux, List.count_cons_of_ne (fun h => hxy h)]
        by_cases hreq : c y + 1 = req
        · rw [if_pos hreq, List.count_cons_of_ne hxy, ih (bumpTally c y),
            bumpTally_ne c y x hxy]
        · rw [if_neg hreq, ih (bumpTally c y), bumpTally_ne c y x hxy]

/-- Count characterisation of the full filter. -/
theorem count_filter_leaves_by_votes (leaves : List Nat) (req : Int) (x : Nat) :
    (filter_leaves_by_votes leaves req).count x =
      if 0 < req ∧ req ≤ (leaves.count x : Int) then 1 else 0 := by
  unfold filter_leaves_by_votes
  rw [count_filterVotesAux]
  norm_num

/-- Membership characterisation: an id is a candidate iff the threshold is
positive and its number of occurrences reaches the threshold. -/
theorem mem_filter_leaves_by_votes (leaves : List Nat) (req : Int) (x : Nat) :
    x ∈ filter_leaves_by_votes leaves req ↔
      0 < req ∧ req ≤ (leaves.count x : Int) := by
  rw [← List.count_pos_iff, count_filter_leaves_by_votes]
  split
  · simp_all
  · simp_all

/-- The candidate list never repeats an id. -/
theorem nodup_filter_leaves_by_votes (leaves : List Nat) (req : Int) :
    (filter_leaves_by_votes leaves req).Nodup := by
  rw [List.nodup_iff_count_le_one]
  intro x
  rw [count_filter_leaves_by_votes]
  split <;> omega

/-- A non-positive threshold yields an empty candidate list: the tally is
always at least 1 after an increment, so it never equals `req ≤ 0`. -/
theorem filter_leaves_by_votes_nonpos (leaves : List Nat) (req : Int) (h : req ≤ 0) :
    filter_leaves_by_votes leaves req = [] := by
  apply List.eq_nil_iff_forall_not_mem.mpr
  intro x hx
  rw [mem_filter_leaves_by_votes] at hx
  omega

/-- C2 (counterexample): the claim quantifies over every pair of
thresholds `t1 < t2`; at `t1 = 0`, `t2 = 1` with input `[0]` the filter
returns `[]` for threshold `0` (the incremented tally, being positive,
never equals `0`) but `[0]` for threshold `1`, so raising the threshold
from `0` to `1` grows the candidate set. -/
theorem C2_counterexample :
    (0 : Int) < 1 ∧
    (filter_leaves_by_votes [0] 0).length < (filter_leaves_by_votes [0] 1).length := by
  decide

/-- C2 (amended): for thresholds that are at least `1`, increasing the
vote threshold never increases the candidate-set size. -/
theorem C2_vote_filter_monotone (leaves : List Nat) (t1 t2 : Int)
    (h1 : 1 ≤ t1) (h12 : t1 < t2) :
    (filter_leaves_by_votes leaves t2).length ≤
      (filter_leaves_by_votes leaves t1).length := by
  have hsub : filter_leaves_by_votes leaves t2 ⊆ filter_leaves_by_votes leaves t1 := by
    intro x hx
    rw [mem_filter_leaves_by_votes] at hx ⊢
    omega
  exact ((nodup_filter_leaves_by_votes leaves t2).subperm hsub).length_le

/-- Witness for C2: thresholds `1 < 2` on the vote list `[0, 0, 1]`. -/
theorem C2_witness :
    (filter_leaves_by_votes [0, 0, 1] 2).length ≤
      (filter_leaves_by_votes [0, 0, 1] 1).length :=
  C2_vote_filter_monotone [0, 0, 1] 1 2 (by decide) (by decide)

/-- C3 (counterexample): the claim includes `vote_threshold = 0`, but with
threshold `0` the filter drops every id — on input `[0]` the id `0`
appears in the input yet is not a candidate. -/
theorem C3_counterexample :
    (0 : Int) ≤ 1 ∧ 0 ∈ [0] ∧ 0 ∉ filter_leaves_by_votes [0] 0 := by
  decide

/-- C3 (amended): with `vote_threshold = 1` (the only threshold `≤ 1` for
which this holds; thresholds `≤ 0` produce an empty candidate set), every
id that appears in the input is a candidate. -/
theorem C3_threshold_one_keeps_all (leaves : List Nat) (req : Int) (h : req = 1) :
    ∀ x ∈ leaves, x ∈ filter_leaves_by_votes leaves req := by
  subst h
  intro x hx
  rw [mem_filter_leaves_by_votes]
  have hc : 0 < leaves.count x := List.count_pos_iff.mpr hx
  exact ⟨by omega, by exact_mod_cast hc⟩

/-- Witness for C3: threshold `1` on the vote list `[5]`. -/
theorem C3_witness : 5 ∈ filter_leaves_by_votes [5] 1 :=
  C3_threshold_one_keeps_all [5] 1 rfl 5 (List.mem_singleton.mpr rfl)

/-- C4: for thresholds at least `1` the candidate list holds each id at
most once — an id is appended exactly when its running count first equals
the threshold, i.e. it is a candidate iff its total number of votes
reaches the threshold; the filter is a pure function of its inputs. -/
theorem C4_candidates_unique (leaves : List Nat) (req : Int) (h : 1 ≤ req) :
    (filter_leaves_by_votes leaves req).Nodup ∧
    (∀ x, (filter_leaves_by_votes leaves req).count x ≤ 1) ∧
    (∀ x, x ∈ filter_leaves_by_votes leaves req ↔ req ≤ (leaves.count x : Int)) := by
  refine ⟨nodup_filter_leaves_by_votes leaves req, fun x => ?_, fun x => ?_⟩
  · rw [count_filter_leaves_by_votes]
    split <;> omega
  · rw [mem_filter_leaves_by_votes]
    constructor
    · exact fun hx => hx.2
    · exact fun hx => ⟨by omega, hx⟩

/-- Witness for C4: threshold `2` on the vote list `[0, 1, 0]`. -/
theorem C4_witness :
    (filter_leaves_by_votes [0, 1, 0] 2).Nodup ∧
    (0 ∈ filter_leaves_by_votes [0, 1, 0] 2 ↔
      (2 : Int) ≤ (([0, 1, 0] : List Nat).count 0 : Int)) :=
  ⟨(C4_candidates_unique [0, 1, 0] 2 (by decide)).1,
   (C4_candidates_unique [0, 1, 0] 2 (by decide)).2.2 0⟩

/-- The bounded-array loop succeeds whenever every id is a legal index
into the tally, and only emits ids read from the input. -/
theorem filterVotesArrAux_total (req : Int) (leaves : List Nat) (votes : List Int)
    (hb : ∀ x ∈ leaves, x < votes.length) :
    ∃ out, filterVotesArrAux req leaves votes = some out ∧ ∀ x ∈ out, x ∈ leaves := by
  induction leaves generalizing votes with
  | nil => exact ⟨[], rfl, by simp⟩
  | cons y xs ih =>
      have hy : y < votes.length := hb y (List.mem_cons_self y xs)
      have hb' : ∀ x ∈ xs, x < (votes.set y (votes[y] + 1)).length := by
        intro x hx
        rw [List.length_set]
        exact hb x (List.mem_cons_of_mem y hx)
      obtain ⟨rest, hrest, hsub⟩ := ih _ hb'
      refine ⟨if votes[y] + 1 = req then y :: rest else rest, ?_, ?_⟩
      · simp only [filterVotesArrAux, dif_pos hy, hrest]
      · intro x hx
        by_cases hc : votes[y] + 1 = req
        · rw [if_pos hc] at hx
          rcases List.mem_cons.mp hx with h | h
          · exact h ▸ List.mem_cons_self y xs
          · exact List.mem_cons_of_mem y (hsub x h)
        · rw [if_neg hc] at hx
          exact List.mem_cons_of_mem y (hsub x hx)

/-- C9: when the input holds exactly `num_leaves` ids, each in
`[0, num_leaves)`, every tally access of the vote-filter loop is in
bounds, the loop terminates with a result, and every emitted candidate is
one of the input ids. -/
theorem C9_filter_in_bounds (leaves : List Nat) (num_leaves : Nat) (req : Int)
    (hlen : leaves.length = num_leaves) (hb : ∀ x ∈ leaves, x < num_leaves) :
    ∃ out, filterLeavesByVotesArr leaves num_leaves req = some out ∧
      ∀ x ∈ out, x ∈ leaves := by
  apply filterVotesArrAux_total
  intro x hx
  rw [List.length_replicate]
  exact hb x hx

/-- Witness for C9: three votes over a tally of size three. -/
theorem C9_witness : (filterLeavesByVotesArr [0, 1, 0] 3 2).isSome = true := by
  obtain ⟨out, hout, hsub⟩ := C9_filter_in_bounds [0, 1, 0] 3 2 (by decide) (by decide)
  rw [hout]
  rfl

/-- C10: `vector_to_nparray` returns every empty result as a length-0
`PyArray_FLOAT` array, whatever element type was requested; in
particular the standalone vote filter returns a float-typed array when no
candidate survives, and an int-typed array otherwise. -/
theorem C10_empty_array_is_float (t : NpType) (leaves : List Nat) (req : Int) :
    (vector_to_nparray [] t).dtype = NpType.float32 ∧
    (filter_leaves_by_votes leaves req = [] →
      (filterLeavesWrapper leaves req).dtype = NpType.float32) ∧
    (filter_leaves_by_votes leaves req ≠ [] →
      (filterLeavesWrapper leaves req).dtype = NpType.int32) := by
  refine ⟨rfl, fun h => ?_, fun h => ?_⟩
  · simp [filterLeavesWrapper, vector_to_nparray, h]
  · simp [filterLeavesWrapper, vector_to_nparray, h]

/-- Sortedness of the full selection order is inherited by every prefix,
and every member of a prefix is below every member of the matching
suffix. -/
theorem sorted_take_le_drop {α : Type} (r : α → α → Prop) (s : List α) (k : Nat)
    (hs : List.Sorted r s) :
    ∀ i ∈ s.take k, ∀ j ∈ s.drop k, r i j := by
  have h := hs
  rw [← List.take_append_drop k s] at h
  exact (List.pairwise_append.mp h).2.2

/-- C1: for a dataset of `n` points of dimensionality `dim`, a query of
length `dim` and `1 ≤ k ≤ n`, `exact_search` returns exactly `k` indices,
sorted by ascending squared Euclidean distance with ties broken by
ascending index, without repetition, all within the dataset, and such
that every point left out is at least as far (in the tie-broken order) as
every point returned: the result is exactly the `k` nearest points. -/
theorem C1_exact_search_correct (data : List (List Int)) (q : List Int) (dim k : Nat)
    (hdata : ∀ p ∈ data, p.length = dim) (hq : q.length = dim)
    (hk1 : 1 ≤ k) (hkn : k ≤ data.length) :
    (exact_search data q k).length = k ∧
    List.Sorted (nnLE data q) (exact_search data q k) ∧
    (exact_search data q k).Nodup ∧
    (∀ i ∈ exact_search data q k, i < data.length) ∧
    (∀ j, j < data.length → j ∉ exact_search data q k →
      ∀ i ∈ exact_search data q k, nnLE data q i j) := by
  have hperm : (List.insertionSort (nnLE data q) (List.range data.length)).Perm
      (List.range data.length) := List.perm_insertionSort _ _
  have hsort : List.Sorted (nnLE data q)
      (List.insertionSort (nnLE data q) (List.range data.length)) :=
    List.sorted_insertionSort _ _
  have hlen : (List.insertionSort (nnLE data q) (List.range data.length)).length =
      data.length := by
    rw [hperm.length_eq, List.length_range]
  refine ⟨?_, ?_, ?_, ?_, ?_⟩
  · rw [exact_search, exact_knn, List.length_take, hlen]
    omega
  · exact hsort.sublist (List.take_sublist _ _)
  · exact (hperm.nodup_iff.mpr (List.nodup_range _)).sublist (List.take_sublist _ _)
  · intro i hi
    have : i ∈ List.range data.length :=
      hperm.mem_iff.mp ((List.take_sublist _ _).subset hi)
    exact List.mem_range.mp this
  · intro j hj hjo i hi
    have hjs : j ∈ List.insertionSort (nnLE data q) (List.range data.length) :=
      hperm.mem_iff.mpr (List.mem_range.mpr hj)
    have hjd : j ∈ (List.insertionSort (nnLE data q) (List.range data.length)).drop k := by
      have hsplit : j ∈ (List.insertionSort (nnLE data q) (List.range data.length)).take k ++
          (List.insertionSort (nnLE data q) (List.range data.length)).drop k := by
        rw [List.take_append_drop k]
        exact hjs
      rcases List.mem_append.mp hsplit with h | h
      · exact absurd h hjo
      · exact h
    exact sorted_take_le_drop (nnLE data q) _ k hsort i hi j hjd

/-- Witness for C1: three one-dimensional points `3, 1, 2`, query `0`,
`k = 2`. -/
theorem C1_witness :
    (exact_search [[3], [1], [2]] [0] 2).length = 2 ∧
    List.Sorted (nnLE [[3], [1], [2]] [0]) (exact_search [[3], [1], [2]] [0] 2) ∧
    (exact_search [[3], [1], [2]] [0] 2).Nodup :=
  have h := C1_exact_search_correct [[3], [1], [2]] [0] 1 2
    (by decide) (by decide) (by decide) (by decide)
  ⟨h.1, h.2.1, h.2.2.1⟩

/-- Witness for C10: threshold `0` empties the candidate set (float
output), threshold `1` keeps it (int output). -/
theorem C10_witness :
    (filterLeavesWrapper [0] 0).dtype = NpType.float32 ∧
    (filterLeavesWrapper [0] 1).dtype = NpType.int32 :=
  ⟨(C10_empty_array_is_float NpType.int32 [0] 0).2.1 (by decide),
   (C10_empty_array_is_float NpType.int32 [0] 1).2.2 (by decide)⟩

/-- C5 (counterexample): with two points, routed id list `[0]` and
threshold `1` the candidate set is `[0]`, one member, yet an
`ann_from_leaves` call with `k = 2` returns a length-2 array whose second
entry is an uninitialised slot — the claim that the returned arrays hold
only the available candidates with no padding fails. -/
theorem C5_counterexample :
    (filter_leaves_by_votes [0] 1).length = 1 ∧
    (ann_from_leaves [[0], [5]] [0] [0] 2 1).length ≠
      (filter_leaves_by_votes [0] 1).length ∧
    none ∈ ann_from_leaves [[0], [5]] [0] [0] 2 1 := by
  decide

/-- C5 (amended): the binding always returns a length-`k` array, with no
error raised; when the engine produces `c ≤ k` candidates, the first `c`
entries are exactly those candidates in order and the remaining `k - c`
entries are uninitialised slots. -/
theorem C5_result_padded_to_k (data : List (List Int)) (q : List Int)
    (leaves : List Nat) (k : Nat) (elect : Int) :
    (query_from_leaves data q leaves k elect).length ≤ k ∧
    ann_from_leaves data q leaves k elect =
      (query_from_leaves data q leaves k elect).map some ++
        List.replicate (k - (query_from_leaves data q leaves k elect).length) none ∧
    (ann_from_leaves data q leaves k elect).length = k := by
  have hle : (query_from_leaves data q leaves k elect).length ≤ k :=
    List.length_take_le _ _
  have heq : ann_from_leaves data q leaves k elect =
      (query_from_leaves data q leaves k elect).map some ++
        List.replicate (k - (query_from_leaves data q leaves k elect).length) none := by
    unfold ann_from_leaves writeBuffer
    rw [List.take_append_eq_append_take,
      List.take_of_length_le (by rw [List.length_map]; exact hle),
      List.take_replicate, List.length_map,
      Nat.min_eq_left (Nat.sub_le k _)]
  refine ⟨hle, heq, ?_⟩
  rw [heq, List.length_append, List.length_map, List.length_replicate]
  omega

/-- C6: a query vector whose length differs from the index dimensionality
makes both the approximate and the exact query fail with
`DimensionMismatch` before producing a result. -/
theorem C6_dimension_mismatch (data : List (List Int)) (f : Forest) (q : List Int)
    (k : Nat) (elect : Int) (h : q.length ≠ f.dim) :
    approximate_query data f q k elect = Except.error MrptError.dimensionMismatch ∧
    exact_query data f.dim q k = Except.error MrptError.dimensionMismatch := by
  constructor
  · simp [approximate_query, h]
  · simp [exact_query, h]

/-- Witness for C6: a one-entry query against a dimension-2 index. -/
theorem C6_witness :
    approximate_query [[0, 0]] leafForest [3] 1 1 =
      Except.error MrptError.dimensionMismatch ∧
    exact_query [[0, 0]] leafForest.dim [3] 1 =
      Except.error MrptError.dimensionMismatch :=
  C6_dimension_mismatch [[0, 0]] leafForest [3] 1 1 (by decide)

/-- C7: construction with `n_trees <= 0`, `depth < 0` or density outside
`(0, 1]` fails with `InvalidParameter` and produces no index. -/
theorem C7_invalid_parameters_rejected (n_trees depth : Int) (density : ℚ)
    (h : n_trees ≤ 0 ∨ depth < 0 ∨ ¬(0 < density ∧ density ≤ 1)) :
    Mrpt_init n_trees depth density = Except.error MrptError.invalidParameter := by
  unfold Mrpt_init
  rw [if_pos]
  rcases h with h | h | h
  · exact Or.inl h
  · exact Or.inr (Or.inl h)
  · rcases not_and_or.mp h with h | h
    · exact Or.inr (Or.inr (Or.inl (le_of_not_lt h)))
    · exact Or.inr (Or.inr (Or.inr (lt_of_not_le h)))

/-- Witness for C7: zero trees requested. -/
theorem C7_witness :
    Mrpt_init 0 2 (1 / 2) = Except.error MrptError.invalidParameter :=
  C7_invalid_parameters_rejected 0 2 (1 / 2) (Or.inl (by decide))

/-- Decoding inverts encoding for every node within the depth bound,
whatever trails the encoded node in the stream. -/
theorem decodeNode_encodeNode (t : TNode) (d : Nat) (rest : List Int)
    (h : hasDepthB t d = true) :
    decodeNode d (encodeNode t ++ rest) = some (t, rest) := by
  induction t generalizing d rest with
  | leaf idxs =>
      simp only [encodeNode, List.cons_append, decodeNode, Int.toNat_ofNat]
      rw [if_neg (by simp)]
      rw [List.take_left' (List.length_map idxs Int.ofNat),
        List.drop_left' (List.length_map idxs Int.ofNat)]
      simp [List.map_map, Function.comp_def]
  | internal proj split l r ihl ihr =>
      cases d with
      | zero => simp [hasDepthB] at h
      | succ d =>
          rw [hasDepthB, Bool.and_eq_true] at h
          have hl := ihl d (encodeNode r ++ rest) h.1
          have hr := ihr d rest h.2
          have hstream : encodeNode (TNode.internal proj split l r) ++ rest =
              1 :: (proj.length : Int) ::
                (proj ++ (split :: (encodeNode l ++ (encodeNode r ++ rest)))) := by
            simp [encodeNode]
          rw [hstream]
          simp only [decodeNode, Int.toNat_ofNat]
          rw [if_pos (by simp)]
          simp only [List.drop_left, List.take_left, hl, hr]

/-- Decoding inverts encoding for a whole sequence of trees. -/
theorem decodeTrees_encode (ts : List TNode) (d : Nat) (rest : List Int)
    (h : ∀ t ∈ ts, hasDepthB t d = true) :
    decodeTrees ts.length d ((ts.map encodeNode).flatten ++ rest) = some (ts, rest) := by
  induction ts with
  | nil => simp [decodeTrees]
  | cons t ts ih =>
      have h1 : decodeNode d (encodeNode t ++ ((ts.map encodeNode).flatten ++ rest)) =
          some (t, (ts.map encodeNode).flatten ++ rest) :=
        decodeNode_encodeNode t d _ (h t (List.mem_cons_self t ts))
      simp only [List.map_cons, List.flatten_cons, List.length_cons, List.append_assoc,
        decodeTrees, h1, ih (fun u hu => h u (List.mem_cons_of_mem t hu))]

/-- The codec round-trip: saving and loading a well-formed forest
restores it exactly. -/
theorem load_save (f : Forest) (h : forestWF f = true) : load (save f) = some f := by
  have htrees : ∀ t ∈ f.trees, hasDepthB t f.depth = true := by
    simpa [forestWF, List.all_eq_true] using h
  have hdec := decodeTrees_encode f.trees f.depth [] htrees
  rw [List.append_nil] at hdec
  simp only [save, load, Int.toNat_ofNat, hdec, Rat.mkRat_self]

/-- C8: saving a well-formed forest to a byte stream and loading it back
yields a forest whose approximate and exact queries agree with the
original on every dataset, query vector, `k` and vote threshold. -/
theorem C8_save_load_roundtrip (f : Forest) (h : forestWF f = true) :
    ∃ g, load (save f) = some g ∧
      (∀ data q k elect,
        approximate_query data g q k elect = approximate_query data f q k elect) ∧
      (∀ data q k, exact_query data g.dim q k = exact_query data f.dim q k) :=
  ⟨f, load_save f h, fun _ _ _ _ => rfl, fun _ _ _ => rfl⟩

/-- Witness for C8: a depth-1 forest with one internal node. -/
theorem C8_witness : (load (save demoForest)).isSome = true := by
  obtain ⟨g, hg, h1, h2⟩ := C8_save_load_roundtrip demoForest (by decide)
  rw [hg]
  rfl

end Mrpt
